import Mathlib

set_option maxHeartbeats 1000000

/-!
A shallow embedding of the `dune-extract` decode core: the byte cursor
(`bytes_ext.rs`), the HSQ bitstream decompressor (`unhsq.rs`), the archive
reader (`dat_file.rs`), the palette (`pal.rs`), the framebuffer (`frame.rs`)
and the sprite decoder (`sprite.rs`).  Bytes are modelled as `Nat` values
below 256; machine integers are `Nat` with explicit `% 2 ^ w` where the Rust
code can wrap.  Fallible operations (cursor reads past the end, slice
indexing out of bounds, i.e. Rust panics or `io::Error`s) return `Option`.
-/

/-- A read cursor over an in-memory byte buffer (`std::io::Cursor<&[u8]>`). -/
structure ByteCursor where
  data : List Nat
  pos : Nat
deriving Repr, DecidableEq

/-- `ReadBytesExt::read_u8`: read one byte, advancing the cursor; `none` models
the `io::Error` on end of input. -/
def ByteCursor.read_u8 (c : ByteCursor) : Option (Nat × ByteCursor) :=
  match c.data[c.pos]? with
  | some b => some (b, ⟨c.data, c.pos + 1⟩)
  | none => none

/-- `ReadBytesExt::read_le_u16`: two bytes, little endian. -/
def ByteCursor.read_le_u16 (c : ByteCursor) : Option (Nat × ByteCursor) :=
  match c.read_u8 with
  | none => none
  | some (b0, c) =>
    match c.read_u8 with
    | none => none
    | some (b1, c) => some (b0 + 256 * b1, c)

/-- `ReadBytesExt::read_le_u32`: four bytes, little endian. -/
def ByteCursor.read_le_u32 (c : ByteCursor) : Option (Nat × ByteCursor) :=
  match c.read_le_u16 with
  | none => none
  | some (w0, c) =>
    match c.read_le_u16 with
    | none => none
    | some (w1, c) => some (w0 + 65536 * w1, c)

/-- `Seek::seek_relative(n)` for a forward seek: just advances the position
(no bounds check is performed by `Cursor`). -/
def ByteCursor.seek_relative (c : ByteCursor) (n : Nat) : ByteCursor :=
  ⟨c.data, c.pos + n⟩

/-!
## `unhsq.rs` — the HSQ bitstream LZ decompressor
-/

/-- The decoder's bit reader (`unhsq.rs`, `struct Reader`): a 16-bit bit
queue plus the byte cursor over the compressed payload. -/
structure HsqReader where
  queue : Nat
  r : ByteCursor
deriving Repr, DecidableEq

/-- `Reader::read_bit` (`unhsq.rs` lines 11–22): take the queue's low bit and
shift; if the shifted queue is zero, refill from a little-endian 16-bit word,
return that word's lowest bit, and set the queue to `0x8000 ||| (word >>> 1)`. -/
def HsqReader.read_bit (rd : HsqReader) : Option (Bool × HsqReader) :=
  let queue := rd.queue
  let bit := queue % 2 = 1
  let queue := queue / 2
  if queue = 0 then
    match rd.r.read_le_u16 with
    | none => none
    | some (w, r) => some (w % 2 = 1, ⟨0x8000 ||| w / 2, r⟩)
  else
    some (bit, ⟨queue, rd.r⟩)

/-- `Reader::read_u8`: a plain byte read from the underlying cursor. -/
def HsqReader.read_u8 (rd : HsqReader) : Option (Nat × HsqReader) :=
  match rd.r.read_u8 with
  | none => none
  | some (b, r) => some (b, ⟨rd.queue, r⟩)

/-- `Reader::read_le_u16`: a plain little-endian word read from the cursor. -/
def HsqReader.read_le_u16 (rd : HsqReader) : Option (Nat × HsqReader) :=
  match rd.r.read_le_u16 with
  | none => none
  | some (w, r) => some (w, ⟨rd.queue, r⟩)

/-- `w[i] = v` on the output slice: the write panics (here: `none`) when the
index is out of bounds — this is the fatal-overrun behaviour. -/
def writeAt (w : List Nat) (i v : Nat) : Option (List Nat) :=
  if i < w.length then some (w.set i v) else none

/-- The back-reference copy loop of `unhsq` (lines 63–66): `n` iterations of
`w[w_ofs] = w[w_ofs - offset]; w_ofs += 1`, one byte at a time, with u16
wrapping arithmetic on `w_ofs`. -/
def copyBytes : Nat → Nat → List Nat → Nat → Option (List Nat × Nat)
  | 0, _, w, w_ofs => some (w, w_ofs)
  | n + 1, offset, w, w_ofs =>
    match w[(w_ofs + 65536 - offset) % 65536]? with
    | none => none
    | some v =>
      match writeAt w w_ofs v with
      | none => none
      | some w => copyBytes n offset w ((w_ofs + 1) % 65536)

/-- The mutable state of `unhsq`'s main loop: the bit reader, the output
buffer `w`, and the u16 write offset `w_ofs`. -/
structure UnhsqState where
  rd : HsqReader
  w : List Nat
  w_ofs : Nat
deriving Repr, DecidableEq

/-- Result of one iteration of `unhsq`'s main loop: either the loop `break`s
with the finished buffer, or continues with a new state. -/
inductive UnhsqStep where
  | done (w : List Nat)
  | cont (s : UnhsqState)
deriving Repr, DecidableEq

/-- One iteration of the `loop` in `unhsq` (`unhsq.rs` lines 38–67). -/
def unhsqStep (s : UnhsqState) : Option UnhsqStep :=
  match s.rd.read_bit with
  | none => none
  | some (true, rd) =>
    match rd.read_u8 with
    | none => none
    | some (b, rd) =>
      match writeAt s.w s.w_ofs b with
      | none => none
      | some w => some (.cont ⟨rd, w, (s.w_ofs + 1) % 65536⟩)
  | some (false, rd) =>
    match rd.read_bit with
    | none => none
    | some (true, rd) =>
      match rd.read_le_u16 with
      | none => none
      | some (word, rd) =>
        let count := word % 8
        let offset := 8192 - word / 8
        if count = 0 then
          match rd.read_u8 with
          | none => none
          | some (c, rd) =>
            if c = 0 then some (.done s.w)
            else
              match copyBytes (c + 2) offset s.w s.w_ofs with
              | none => none
              | some (w, w_ofs) => some (.cont ⟨rd, w, w_ofs⟩)
        else
          match copyBytes (count + 2) offset s.w s.w_ofs with
          | none => none
          | some (w, w_ofs) => some (.cont ⟨rd, w, w_ofs⟩)
    | some (false, rd) =>
      match rd.read_bit with
      | none => none
      | some (b0, rd) =>
        match rd.read_bit with
        | none => none
        | some (b1, rd) =>
          let count := 2 * (if b0 then 1 else 0) + (if b1 then 1 else 0)
          match rd.read_u8 with
          | none => none
          | some (b, rd) =>
            let offset := 256 - b
            match copyBytes (count + 2) offset s.w s.w_ofs with
            | none => none
            | some (w, w_ofs) => some (.cont ⟨rd, w, w_ofs⟩)

/-- Fuel-indexed iteration of `unhsqStep`. -/
def unhsqLoop : Nat → UnhsqState → Option (List Nat)
  | 0, _ => none
  | fuel + 1, s =>
    match unhsqStep s with
    | none => none
    | some (.done w) => some w
    | some (.cont s2) => unhsqLoop fuel s2

/-- `unhsq(r, w)` with `w` a fresh zeroed buffer of length `wlen`
(`dat_file.rs` line 89 allocates it as `vec![0; unpacked_length]`).  Every
continuing iteration writes at least one byte into the bounds-checked buffer,
so `wlen + 1` steps of fuel always suffice for `wlen < 65536`. -/
def unhsq (r : List Nat) (wlen : Nat) : Option (List Nat) :=
  unhsqLoop (wlen + 1) ⟨⟨0, ⟨r, 0⟩⟩, List.replicate wlen 0, 0⟩

/-!
## `dat_file.rs` — the archive container
-/

/-- `_ = reader.read_u8()`: a byte read whose value and error are both
discarded; it advances the cursor when a byte is available. -/
def ByteCursor.skip_u8 (c : ByteCursor) : ByteCursor :=
  match c.read_u8 with
  | some (_, c2) => c2
  | none => c

/-- `is_compressed` (`dat_file.rs` lines 96–104): at least 6 bytes, the
wrapping mod-256 sum of the first 6 bytes equals `0xab`, and byte 2 is 0. -/
def is_compressed (header : List Nat) : Bool :=
  if header.length < 6 then false
  else
    let checksum := (header.take 6).foldl (fun acc x => (acc + x) % 256) 0
    (checksum == 0xab) && (header[2]? == some 0)

/-- The pure core of `DatFile::read` (`dat_file.rs` lines 71–93), applied to
the raw bytes already fetched by `read_raw`: parse the 6-byte header and
decompress only when the signature holds and the packed length matches. -/
def DatFile.read (data : List Nat) : Option (List Nat) :=
  if is_compressed data = false then some data
  else
    match ByteCursor.read_le_u16 ⟨data, 0⟩ with
    | none => none
    | some (unpacked_length, r) =>
      match (r.skip_u8).read_le_u16 with
      | none => none
      | some (packed_length, _) =>
        if packed_length ≠ data.length then some data
        else unhsq (data.drop 6) unpacked_length

/-- An entry of the archive table (`dat_file.rs`, `struct DatEntry`); the
name is kept as its list of character bytes. -/
structure DatEntry where
  name : List Nat
  size : Nat
  offset : Nat
deriving Repr, DecidableEq

/-- The loop body of `read_fixed_str` (`bytes_ext.rs` lines 34–52): consume
`n` more bytes, appending to `s` until the first NUL is seen. -/
def readFixedStrAux : Nat → ByteCursor → List Nat → Bool → Option (List Nat × ByteCursor)
  | 0, c, s, _ => some (s, c)
  | n + 1, c, s, found_end =>
    match c.read_u8 with
    | none => none
    | some (ch, c) =>
      if found_end then readFixedStrAux n c s true
      else if ch = 0 then readFixedStrAux n c s true
      else readFixedStrAux n c (s ++ [ch]) false

/-- `ReadBytesExt::read_fixed_str(len)`. -/
def read_fixed_str (c : ByteCursor) (len : Nat) : Option (List Nat × ByteCursor) :=
  readFixedStrAux len c [] false

/-- The entry-table loop of `DatFile::open` (`dat_file.rs` lines 39–50):
name (16 bytes), size (u32), offset (u32), one discarded byte; an empty name
breaks out of the loop before pushing. -/
def openEntries : Nat → ByteCursor → List DatEntry → Option (List DatEntry)
  | 0, _, acc => some acc
  | n + 1, c, acc =>
    match read_fixed_str c 16 with
    | none => none
    | some (name, c) =>
      match c.read_le_u32 with
      | none => none
      | some (size, c) =>
        match c.read_le_u32 with
        | none => none
        | some (offset, c) =>
          let c := c.skip_u8
          if name = [] then some acc
          else openEntries n c (acc ++ [⟨name, size, offset⟩])

/-- The pure core of `DatFile::open` applied to the container bytes: the
leading u16 entry count followed by the entry table. -/
def DatFile.open (data : List Nat) : Option (List DatEntry) :=
  match ByteCursor.read_le_u16 ⟨data, 0⟩ with
  | none => none
  | some (entry_count, c) => openEntries entry_count c []

/-!
## `pal.rs` and the palette-delta prologue of `sprite.rs`
-/

/-- `Pal::set` (`pal.rs` lines 27–31) on the flat 768-byte table: writes the
three channel bytes of entry `i`; an out-of-bounds index is the Rust panic,
modelled as `none`. -/
def Pal.set (pal : List Nat) (i : Nat) (rgb : Nat × Nat × Nat) : Option (List Nat) :=
  if 3 * i + 2 < pal.length then
    some (((pal.set (3 * i) rgb.1).set (3 * i + 1) rgb.2.1).set (3 * i + 2) rgb.2.2)
  else none

/-- The inner `for i in 0..count` of `apply_palette_update` (`sprite.rs`
lines 63–69): read `n` RGB triples, applying them at ascending indices
starting from `idx`. -/
def applyTriples : Nat → Nat → ByteCursor → List Nat → Option (ByteCursor × List Nat)
  | _, 0, r, pal => some (r, pal)
  | idx, n + 1, r, pal =>
    match r.read_u8 with
    | none => none
    | some (cr, r) =>
      match r.read_u8 with
      | none => none
      | some (cg, r) =>
        match r.read_u8 with
        | none => none
        | some (cb, r) =>
          match Pal.set pal idx (cr, cg, cb) with
          | none => none
          | some pal => applyTriples (idx + 1) n r pal

/-- The record loop of `apply_palette_update` (`sprite.rs` lines 48–70),
fuel-indexed: each record is `(index, count)`; `(1, 0)` skips 3 bytes and
continues, `(0xff, 0xff)` terminates, `count = 0` means 256 triples. -/
def paletteLoop : Nat → ByteCursor → List Nat → Option (List Nat)
  | 0, _, _ => none
  | fuel + 1, r, pal =>
    match r.read_u8 with
    | none => none
    | some (index, r) =>
      match r.read_u8 with
      | none => none
      | some (count, r) =>
        if index = 1 ∧ count = 0 then paletteLoop fuel (r.seek_relative 3) pal
        else if index = 0xff ∧ count = 0xff then some pal
        else
          let count := if count = 0 then 256 else count
          match applyTriples index count r pal with
          | none => none
          | some (r, pal) => paletteLoop fuel r pal

/-- `SpriteSheet::apply_palette_update` (`sprite.rs` lines 40–73): read the
table-of-contents position; a value at most 2 means no palette prologue.
Every loop iteration consumes input, so `data.length + 1` fuel suffices. -/
def apply_palette_update (data : List Nat) (pal : List Nat) : Option (List Nat) :=
  match ByteCursor.read_le_u16 ⟨data, 0⟩ with
  | none => none
  | some (toc_pos, r) =>
    if toc_pos ≤ 2 then some pal
    else paletteLoop (data.length + 1) r pal

/-!
## `frame.rs` and the sprite drawing of `sprite.rs`
-/

/-- A sprite header view (`sprite.rs`, `struct Sprite`): the fields the draw
routines consult. -/
structure Sprite where
  width : Nat
  height : Nat
  pal_offset : Nat
deriving Repr, DecidableEq

/-- `Sprite::bpp` (`sprite.rs` lines 126–132). -/
def Sprite.bpp (s : Sprite) : Nat := if s.pal_offset < 254 then 4 else 8

/-- `Sprite::pitch` (`sprite.rs` lines 142–148); `div_ceil(4)` is
`(width + 3) / 4`. -/
def Sprite.pitch (s : Sprite) : Nat :=
  if s.bpp = 8 then s.width else 2 * ((s.width + 3) / 4)

/-- The framebuffer (`frame.rs`, `struct Frame`). -/
structure Frame where
  data : List Nat
  width : Nat
  height : Nat
deriving Repr, DecidableEq

/-- `Frame::write_pixel` (`frame.rs` lines 45–49): bounds-checked, silently
dropped outside the frame. -/
def Frame.write_pixel (f : Frame) (x y c : Nat) : Frame :=
  if x < f.width ∧ y < f.height then ⟨f.data.set (y * f.width + x) c, f.width, f.height⟩
  else f

/-- The loop body of `Sprite::draw_4bb` (`sprite.rs` lines 221–237) for one
sprite pixel `(x, y)`: fetch `src[y * pitch + x / 2]` (panic, i.e. `none`, if
out of range), select the low nibble for even `x` and the high nibble for odd
`x`, skip value 0, otherwise write `c + pal_offset` (u8 wrapping). -/
def draw4Pixel (spr : Sprite) (src : List Nat) (dst_x dst_y : Nat)
    (flip_x flip_y : Bool) (pal_offset : Nat) (f : Frame) (y x : Nat) : Option Frame :=
  match src[y * spr.pitch + x / 2]? with
  | none => none
  | some c0 =>
    let c := if x % 2 = 0 then c0 % 16 else c0 / 16
    if c ≠ 0 then
      let px := dst_x + (if flip_x then spr.width - x - 1 else x)
      let py := dst_y + (if flip_y then spr.height - y - 1 else y)
      some (f.write_pixel px py ((c + pal_offset) % 256))
    else some f

/-- `Sprite::draw_4bb` (`sprite.rs` lines 197–238): effective palette offset
is the draw-time argument when non-zero, else the embedded one; then the row
and column loops. -/
def Sprite.draw_4bb (spr : Sprite) (src : List Nat) (f : Frame) (x y : Nat)
    (flip_x flip_y : Bool) (_scale : Nat) (pal_offset : Nat) : Option Frame :=
  let pal_offset := if pal_offset ≠ 0 then pal_offset else spr.pal_offset
  (List.range spr.height).foldlM (fun f yy =>
    (List.range spr.width).foldlM (fun f xx =>
      draw4Pixel spr src x y flip_x flip_y pal_offset f yy xx) f) f

/-- The loop body of `Sprite::draw_8bpp` (`sprite.rs` lines 258–267) for one
sprite pixel: fetch `src[y * pitch + x]`; the pixel is written unless
`mode = 255` and the value is 0. -/
def draw8Pixel (spr : Sprite) (src : List Nat) (dst_x dst_y : Nat)
    (flip_x flip_y : Bool) (mode : Nat) (f : Frame) (y x : Nat) : Option Frame :=
  match src[y * spr.pitch + x]? with
  | none => none
  | some c =>
    if mode ≠ 255 ∨ c ≠ 0 then
      let px := dst_x + (if flip_x then spr.width - x - 1 else x)
      let py := dst_y + (if flip_y then spr.height - y - 1 else y)
      some (f.write_pixel px py c)
    else some f

/-- `Sprite::draw_8bpp` (`sprite.rs` lines 240–268): the mode is the
draw-time argument when non-zero, else the embedded palette offset. -/
def Sprite.draw_8bpp (spr : Sprite) (src : List Nat) (f : Frame) (x y : Nat)
    (flip_x flip_y : Bool) (_scale : Nat) (mode : Nat) : Option Frame :=
  let mode := if mode ≠ 0 then mode else spr.pal_offset
  (List.range spr.height).foldlM (fun f yy =>
    (List.range spr.width).foldlM (fun f xx =>
      draw8Pixel spr src x y flip_x flip_y mode f yy xx) f) f

/-!
## `Sprite::unrle` (`sprite.rs` lines 270–301)
-/

/-- `Cursor<&mut Vec<u8>>` used as the RLE destination: sequential writes
overwrite in place and extend the vector once past its end. -/
structure WriteCursor where
  data : List Nat
  pos : Nat
deriving Repr, DecidableEq

/-- `write_u8` on the destination cursor: never fails. -/
def WriteCursor.write_u8 (w : WriteCursor) (v : Nat) : WriteCursor :=
  if w.pos < w.data.length then ⟨w.data.set w.pos v, w.pos + 1⟩
  else ⟨w.data ++ [v], w.pos + 1⟩

/-- The repeat-run inner loop of `unrle`: write `n` copies of `v`. -/
def writeRepeat : Nat → WriteCursor → Nat → WriteCursor
  | 0, w, _ => w
  | n + 1, w, v => writeRepeat n (w.write_u8 v) v

/-- The literal-run inner loop of `unrle`: copy `n` source bytes verbatim. -/
def writeLiterals : Nat → ByteCursor → WriteCursor → Option (ByteCursor × WriteCursor)
  | 0, src, w => some (src, w)
  | n + 1, src, w =>
    match src.read_u8 with
    | none => none
    | some (v, src) => writeLiterals n src (w.write_u8 v)

/-- The `while x < pitch` command loop of `unrle` for one row, fuel-indexed:
a command byte with the high bit set emits `257 - cmd` copies of the next
byte, otherwise `cmd + 1` literal bytes; `x` advances by the emitted count. -/
def unrleRow (pitch : Nat) : Nat → Nat → ByteCursor → WriteCursor → Option (ByteCursor × WriteCursor)
  | 0, _, _, _ => none
  | fuel + 1, x, src, w =>
    if x < pitch then
      match src.read_u8 with
      | none => none
      | some (cmd, src) =>
        if cmd &&& 0x80 ≠ 0 then
          let count := 257 - cmd
          match src.read_u8 with
          | none => none
          | some (v, src) => unrleRow pitch fuel (x + count) src (writeRepeat count w v)
        else
          let count := cmd + 1
          match writeLiterals count src w with
          | none => none
          | some (src, w) => unrleRow pitch fuel (x + count) src w
    else some (src, w)

/-- The outer `for _ in 0..height` loop of `unrle`.  Within one row each
iteration advances `x` by at least 1 for byte-valued commands, so `pitch + 1`
fuel suffices. -/
def unrleRows (pitch : Nat) : Nat → ByteCursor → WriteCursor → Option WriteCursor
  | 0, _, w => some w
  | h + 1, src, w =>
    match unrleRow pitch (pitch + 1) 0 src w with
    | none => none
    | some (src, w) => unrleRows pitch h src w

/-- `Sprite::unrle`: a zeroed `height * pitch` buffer filled row by row. -/
def Sprite.unrle (spr : Sprite) (data : List Nat) : Option (List Nat) :=
  match unrleRows spr.pitch spr.height ⟨data, 0⟩ ⟨List.replicate (spr.height * spr.pitch) 0, 0⟩ with
  | none => none
  | some w => some w.data

/-!
## Helper lemmas
-/

/-- The wrapping byte sum computed by `is_compressed`'s fold is the plain sum
taken mod 256. -/
theorem foldl_add_mod (l : List Nat) : ∀ a : Nat, a < 256 →
    l.foldl (fun acc x => (acc + x) % 256) a = (a + l.sum) % 256 := by
  induction l with
  | nil => intro a ha; simp [Nat.mod_eq_of_lt ha]
  | cons x xs ih =>
    intro a ha
    simp only [List.foldl_cons, List.sum_cons]
    rw [ih ((a + x) % 256) (Nat.mod_lt _ (by norm_num)), Nat.mod_add_mod]
    ring_nf

/-- Reading a little-endian word at a position where both bytes exist. -/
theorem read_le_u16_at (data : List Nat) (pos b0 b1 : Nat)
    (h0 : data[pos]? = some b0) (h1 : data[pos + 1]? = some b1) :
    ByteCursor.read_le_u16 ⟨data, pos⟩ = some (b0 + 256 * b1, ⟨data, pos + 2⟩) := by
  simp [ByteCursor.read_le_u16, ByteCursor.read_u8, h0, h1]

/-- Skipping one byte that exists advances the cursor by one. -/
theorem skip_u8_at (data : List Nat) (pos b : Nat) (h : data[pos]? = some b) :
    ByteCursor.skip_u8 ⟨data, pos⟩ = ⟨data, pos + 1⟩ := by
  simp [ByteCursor.skip_u8, ByteCursor.read_u8, h]

/-!
## Claim theorems
-/

/-- C9: the codec's bit reader keeps a 16-bit queue; `read_bit` takes the
queue's next unconsumed bit and shifts; when the shifted queue reaches zero
it refills from a little-endian 16-bit word, returns that word's lowest bit,
and reinitializes the queue to `0x8000 ||| (word >>> 1)`; the planted high
sentinel bit makes the refilled queue survive exactly 15 further shifts
before hitting zero again, so no separate bit counter is needed. -/
theorem read_bit_queue_spec (rd : HsqReader) :
    (rd.queue / 2 ≠ 0 →
      rd.read_bit = some (decide (rd.queue % 2 = 1), ⟨rd.queue / 2, rd.r⟩)) ∧
    (∀ w r2, rd.queue / 2 = 0 → rd.r.read_le_u16 = some (w, r2) →
      rd.read_bit = some (decide (w % 2 = 1), ⟨0x8000 ||| w / 2, r2⟩)) ∧
    (rd.queue / 2 = 0 → rd.r.read_le_u16 = none → rd.read_bit = none) ∧
    (∀ w : Nat, w < 65536 →
      0x8000 ||| w / 2 = 32768 + w / 2 ∧
      (∀ k, k < 15 → (0x8000 ||| w / 2) / 2 ^ (k + 1) ≠ 0) ∧
      (0x8000 ||| w / 2) / 2 ^ 15 = 1) := by
  have hlor : ∀ w : Nat, w < 65536 → 0x8000 ||| w / 2 = 32768 + w / 2 := by
    intro w hw
    have h2 : w / 2 < 2 ^ 15 := by norm_num; omega
    have h3 := Nat.mul_add_lt_is_or h2 1
    norm_num at h3
    exact h3.symm
  refine ⟨fun h => ?_, fun w r2 h hr => ?_, fun h hr => ?_, fun w hw => ?_⟩
  · simp [HsqReader.read_bit, h]
  · simp [HsqReader.read_bit, h, hr]
  · simp [HsqReader.read_bit, h, hr]
  · have h2 : w / 2 < 32768 := by omega
    refine ⟨hlor w hw, ?_, ?_⟩
    · intro k hk
      rw [hlor w hw]
      have hle : 2 ^ (k + 1) ≤ 32768 + w / 2 := by
        calc 2 ^ (k + 1) ≤ 2 ^ 15 := Nat.pow_le_pow_right (by norm_num) (by omega)
        _ ≤ 32768 + w / 2 := by norm_num
      have hpos : 0 < 2 ^ (k + 1) := Nat.two_pow_pos _
      intro hzero
      rw [Nat.div_eq_zero_iff hpos] at hzero
      omega
    · rw [hlor w hw]
      have h15 : (2 : Nat) ^ 15 = 32768 := by norm_num
      rw [h15]
      exact Nat.div_eq_of_lt_le (by omega) (by omega)

/-- Witness for C9: a reader whose queue `5` still has unconsumed bits
returns the low bit `1` and the shifted queue `2`. -/
theorem read_bit_queue_spec_witness :
    HsqReader.read_bit ⟨5, ⟨[], 0⟩⟩ = some (decide (5 % 2 = 1), ⟨5 / 2, ⟨[], 0⟩⟩) :=
  (read_bit_queue_spec ⟨5, ⟨[], 0⟩⟩).1 (by decide)

/-- C10: a sprite-sheet resource whose leading little-endian word (the
table-of-contents position) is at most 2 has no palette-delta prologue:
`apply_palette_update` succeeds immediately and the palette is returned
unchanged. -/
theorem apply_palette_update_no_prologue (data pal : List Nat) (t : Nat) (c : ByteCursor)
    (h : ByteCursor.read_le_u16 ⟨data, 0⟩ = some (t, c)) (ht : t ≤ 2) :
    apply_palette_update data pal = some pal := by
  simp [apply_palette_update, h, ht]

/-- Witness for C10: a resource starting with the word 2 leaves the palette
`[1, 2, 3]` untouched. -/
theorem apply_palette_update_no_prologue_witness :
    apply_palette_update [2, 0, 99] [1, 2, 3] = some [1, 2, 3] :=
  apply_palette_update_no_prologue [2, 0, 99] [1, 2, 3] 2 ⟨[2, 0, 99], 2⟩ (by decide) (by decide)

/-- C2: `DatFile.read` decompresses a resource exactly when the compression
signature holds and the header's packed length equals the resource length;
the signature holds, deterministically for all byte values, exactly when the
resource has at least 6 bytes, the mod-256 sum of its first 6 bytes is the
sentinel `0xab`, and byte index 2 is 0; in every other case the raw bytes
come back unmodified. -/
theorem read_compression_dispatch (data : List Nat) :
    (is_compressed data = true ↔
      6 ≤ data.length ∧ (data.take 6).sum % 256 = 0xab ∧ data[2]? = some 0) ∧
    (is_compressed data = false → DatFile.read data = some data) ∧
    (∀ u0 u1 b2 p0 p1 : Nat, data[0]? = some u0 → data[1]? = some u1 →
      data[2]? = some b2 → data[3]? = some p0 → data[4]? = some p1 →
      is_compressed data = true →
      (p0 + 256 * p1 ≠ data.length → DatFile.read data = some data) ∧
      (p0 + 256 * p1 = data.length →
        DatFile.read data = unhsq (data.drop 6) (u0 + 256 * u1))) := by
  refine ⟨?_, fun h => ?_, ?_⟩
  · by_cases hl : data.length < 6
    · simp [is_compressed, hl]
    · rw [is_compressed, if_neg hl]
      rw [foldl_add_mod _ 0 (by norm_num)]
      simp only [Nat.zero_add, Bool.and_eq_true, beq_iff_eq]
      constructor
      · rintro ⟨hsum, hb2⟩
        exact ⟨by omega, hsum, hb2⟩
      · rintro ⟨_, hsum, hb2⟩
        exact ⟨hsum, hb2⟩
  · simp [DatFile.read, h]
  · intro u0 u1 b2 p0 p1 h0 h1 h2 h3 h4 hc
    have hr0 := read_le_u16_at data 0 u0 u1 h0 (by simpa using h1)
    have hskip := skip_u8_at data 2 b2 h2
    have hr1 := read_le_u16_at data 3 p0 p1 h3 (by simpa using h4)
    constructor
    · intro hne
      rw [DatFile.read, if_neg (by simp [hc])]
      simp [hr0, hskip, hr1, hne]
    · intro heq
      rw [DatFile.read, if_neg (by simp [hc])]
      simp [hr0, hskip, hr1, heq]

/-- Witness for C2: a crafted signed resource whose packed length matches is
routed to the decompressor. -/
theorem read_compression_dispatch_witness :
    DatFile.read [0, 0, 0, 11, 0, 160, 2, 0, 0, 0, 0] = unhsq [2, 0, 0, 0, 0] 0 := by
  have h := ((read_compression_dispatch [0, 0, 0, 11, 0, 160, 2, 0, 0, 0, 0]).2.2
    0 0 0 11 0 rfl rfl rfl rfl rfl (by decide)).2 (by decide)
  simpa using h

/-- The `found_end_of_string` phase of `read_fixed_str`: the remaining bytes
are consumed but ignored. -/
theorem readFixedStrAux_found (len : Nat) : ∀ (data : List Nat) (pos : Nat) (s : List Nat),
    pos + len ≤ data.length →
    readFixedStrAux len ⟨data, pos⟩ s true = some (s, ⟨data, pos + len⟩) := by
  induction len with
  | zero => intro data pos s _; simp [readFixedStrAux]
  | succ n ih =>
    intro data pos s h
    have hpos : pos < data.length := by omega
    have hb : data[pos]? = some data[pos] := List.getElem?_eq_getElem hpos
    have hplus : pos + (n + 1) = pos + 1 + n := by omega
    rw [readFixedStrAux, hplus]
    simp [ByteCursor.read_u8, hb, ih data (pos + 1) s (by omega)]

/-- The main phase of `read_fixed_str`: the string collected is exactly the
bytes strictly before the first NUL among the `len` consumed bytes. -/
theorem readFixedStrAux_go (len : Nat) : ∀ (data : List Nat) (pos : Nat) (s : List Nat),
    pos + len ≤ data.length →
    readFixedStrAux len ⟨data, pos⟩ s false =
      some (s ++ ((data.drop pos).take len).takeWhile (fun b => b != 0),
        ⟨data, pos + len⟩) := by
  induction len with
  | zero => intro data pos s _; simp [readFixedStrAux]
  | succ n ih =>
    intro data pos s h
    have hpos : pos < data.length := by omega
    have hb : data[pos]? = some data[pos] := List.getElem?_eq_getElem hpos
    have hdrop : data.drop pos = data[pos] :: data.drop (pos + 1) :=
      List.drop_eq_getElem_cons hpos
    have hplus : pos + (n + 1) = pos + 1 + n := by omega
    rw [readFixedStrAux, hplus, hdrop]
    by_cases h0 : data[pos] = 0
    · simp [ByteCursor.read_u8, hb, h0,
        readFixedStrAux_found n data (pos + 1) s (by omega)]
    · simp [ByteCursor.read_u8, hb, h0,
        ih data (pos + 1) (s ++ [data[pos]]) (by omega)]
      rw [hdrop, List.take_succ_cons, List.takeWhile_cons]
      simp [h0]

/-- C6: an entry's 16-byte name field decodes to the bytes strictly before
the first NUL, ignoring everything after the first NUL while still consuming
all 16 bytes; and the entry-table loop stops as soon as a name decodes to the
empty string, truncating the entry list there regardless of the declared
entry count. -/
theorem open_name_decoding :
    (∀ (data : List Nat) (pos : Nat), pos + 16 ≤ data.length →
      read_fixed_str ⟨data, pos⟩ 16 =
        some (((data.drop pos).take 16).takeWhile (fun b => b != 0), ⟨data, pos + 16⟩)) ∧
    (∀ (n : Nat) (c c1 c2 c3 : ByteCursor) (acc : List DatEntry) (size offset : Nat),
      read_fixed_str c 16 = some ([], c1) →
      c1.read_le_u32 = some (size, c2) → c2.read_le_u32 = some (offset, c3) →
      openEntries (n + 1) c acc = some acc) ∧
    (∀ (n : Nat) (c c1 c2 c3 : ByteCursor) (acc : List DatEntry)
      (name : List Nat) (size offset : Nat),
      read_fixed_str c 16 = some (name, c1) →
      c1.read_le_u32 = some (size, c2) → c2.read_le_u32 = some (offset, c3) →
      name ≠ [] →
      openEntries (n + 1) c acc = openEntries n c3.skip_u8 (acc ++ [⟨name, size, offset⟩])) := by
  refine ⟨?_, ?_, ?_⟩
  · intro data pos h
    simpa using readFixedStrAux_go 16 data pos [] h
  · intro n c c1 c2 c3 acc size offset hname hsz hofs
    rw [openEntries]
    simp [hname, hsz, hofs]
  · intro n c c1 c2 c3 acc name size offset hname hsz hofs hne
    rw [openEntries]
    simp [hname, hsz, hofs, hne]

/-- Witness for C6: a 16-byte name field `"AB\0c..."` decodes to `[65, 66]`;
the non-zero byte `99` after the first NUL is ignored, and the cursor ends
16 bytes further. -/
theorem open_name_decoding_witness :
    read_fixed_str ⟨[65, 66, 0, 99, 4, 0, 0, 0, 0, 0, 0, 0, 0, 0, 0, 7], 0⟩ 16 =
      some ([65, 66], ⟨[65, 66, 0, 99, 4, 0, 0, 0, 0, 0, 0, 0, 0, 0, 0, 7], 16⟩) := by
  have h := open_name_decoding.1 [65, 66, 0, 99, 4, 0, 0, 0, 0, 0, 0, 0, 0, 0, 0, 7] 0
    (by decide)
  simpa using h

/-- A successful `Pal.set` preserves the palette length. -/
theorem pal_set_length (pal pal2 : List Nat) (i : Nat) (rgb : Nat × Nat × Nat)
    (h : Pal.set pal i rgb = some pal2) : pal2.length = pal.length := by
  rw [Pal.set] at h
  by_cases hi : 3 * i + 2 < pal.length
  · rw [if_pos hi] at h
    cases h
    simp
  · rw [if_neg hi] at h
    cases h

/-- Applying a run of triples that would extend past palette index 255 on a
768-byte palette always fails: either a read fails first, or the write at
index 256 is out of bounds. -/
theorem applyTriples_overflow : ∀ (n idx : Nat) (r : ByteCursor) (pal : List Nat),
    pal.length = 768 → 256 < idx + n → 1 ≤ n →
    applyTriples idx n r pal = none := by
  intro n
  induction n with
  | zero => intro idx r pal _ _ h1; omega
  | succ n ih =>
    intro idx r pal hlen hover _
    rw [applyTriples]
    rcases h1 : r.read_u8 with _ | ⟨cr, r1⟩
    · simp [h1]
    rcases h2 : r1.read_u8 with _ | ⟨cg, r2⟩
    · simp [h1, h2]
    rcases h3 : r2.read_u8 with _ | ⟨cb, r3⟩
    · simp [h1, h2, h3]
    by_cases hidx : 3 * idx + 2 < pal.length
    · have hn : 1 ≤ n := by omega
      have hpal2 : (((pal.set (3 * idx) cr).set (3 * idx + 1) cg).set (3 * idx + 2) cb).length = 768 := by
        simp [hlen]
      simp only [h1, h2, h3, Pal.set, if_pos hidx]
      exact ih (idx + 1) r3 _ hpal2 (by omega) hn
    · simp [h1, h2, h3, Pal.set, hidx]

/-- C5: the palette delta stream is a sequence of `(offset, count)` records
each followed by `count` RGB triples applied at ascending indices from
`offset`, where count 0 means 256 triples; `(1, 0)` skips 3 bytes and
continues as a no-op, `(0xFF, 0xFF)` terminates; and a record with
`offset + count > 256` on the 768-byte palette errors out instead of
silently wrapping past index 255. -/
theorem palette_delta_records :
    (∀ (idx n : Nat) (r r1 r2 r3 : ByteCursor) (pal pal2 : List Nat) (cr cg cb : Nat),
      r.read_u8 = some (cr, r1) → r1.read_u8 = some (cg, r2) →
      r2.read_u8 = some (cb, r3) → Pal.set pal idx (cr, cg, cb) = some pal2 →
      applyTriples idx (n + 1) r pal = applyTriples (idx + 1) n r3 pal2) ∧
    (∀ (fuel : Nat) (r r1 r2 : ByteCursor) (pal : List Nat),
      r.read_u8 = some (1, r1) → r1.read_u8 = some (0, r2) →
      paletteLoop (fuel + 1) r pal = paletteLoop fuel (r2.seek_relative 3) pal) ∧
    (∀ (fuel : Nat) (r r1 r2 : ByteCursor) (pal : List Nat),
      r.read_u8 = some (0xff, r1) → r1.read_u8 = some (0xff, r2) →
      paletteLoop (fuel + 1) r pal = some pal) ∧
    (∀ (fuel : Nat) (r r1 r2 : ByteCursor) (pal : List Nat) (idx count : Nat),
      r.read_u8 = some (idx, r1) → r1.read_u8 = some (count, r2) →
      ¬(idx = 1 ∧ count = 0) → ¬(idx = 0xff ∧ count = 0xff) →
      paletteLoop (fuel + 1) r pal =
        (match applyTriples idx (if count = 0 then 256 else count) r2 pal with
          | none => none
          | some (r3, pal3) => paletteLoop fuel r3 pal3)) ∧
    (∀ (fuel : Nat) (r r1 r2 : ByteCursor) (pal : List Nat) (idx count : Nat),
      r.read_u8 = some (idx, r1) → r1.read_u8 = some (count, r2) →
      ¬(idx = 1 ∧ count = 0) → ¬(idx = 0xff ∧ count = 0xff) →
      pal.length = 768 → 256 < idx + (if count = 0 then 256 else count) →
      paletteLoop (fuel + 1) r pal = none) := by
  have hrec : ∀ (fuel : Nat) (r r1 r2 : ByteCursor) (pal : List Nat) (idx count : Nat),
      r.read_u8 = some (idx, r1) → r1.read_u8 = some (count, r2) →
      ¬(idx = 1 ∧ count = 0) → ¬(idx = 0xff ∧ count = 0xff) →
      paletteLoop (fuel + 1) r pal =
        (match applyTriples idx (if count = 0 then 256 else count) r2 pal with
          | none => none
          | some (r3, pal3) => paletteLoop fuel r3 pal3) := by
    intro fuel r r1 r2 pal idx count h1 h2 hskip hterm
    rw [paletteLoop]
    simp [h1, h2, hskip, hterm]
  refine ⟨?_, ?_, ?_, hrec, ?_⟩
  · intro idx n r r1 r2 r3 pal pal2 cr cg cb h1 h2 h3 hset
    rw [applyTriples]
    simp [h1, h2, h3, hset]
  · intro fuel r r1 r2 pal h1 h2
    rw [paletteLoop]
    simp [h1, h2]
  · intro fuel r r1 r2 pal h1 h2
    rw [paletteLoop]
    simp [h1, h2]
  · intro fuel r r1 r2 pal idx count h1 h2 hskip hterm hlen hover
    rw [hrec fuel r r1 r2 pal idx count h1 h2 hskip hterm]
    rw [applyTriples_overflow _ idx r2 pal hlen hover (by split <;> omega)]

/-- Witness for C5: the record `(255, 2)` would write palette entries 255 and
256; on a 768-byte palette the loop errors out. -/
theorem palette_delta_records_witness :
    paletteLoop 1 ⟨[255, 2], 0⟩ (List.replicate 768 0) = none := by
  exact palette_delta_records.2.2.2.2 0 ⟨[255, 2], 0⟩ ⟨[255, 2], 1⟩ ⟨[255, 2], 2⟩
    (List.replicate 768 0) 255 2 rfl rfl (by decide) (by decide)
    (by rw [List.length_replicate]) (by norm_num)

/-- A successful bounds-checked write preserves the buffer length. -/
theorem writeAt_length {w w2 : List Nat} {i v : Nat} (h : writeAt w i v = some w2) :
    w2.length = w.length := by
  rw [writeAt] at h
  by_cases hi : i < w.length
  · rw [if_pos hi] at h
    cases h
    simp
  · rw [if_neg hi] at h
    cases h

/-- The back-reference copy loop preserves the buffer length. -/
theorem copyBytes_length : ∀ (n offset : Nat) (w : List Nat) (p : Nat) (w2 : List Nat) (p2 : Nat),
    copyBytes n offset w p = some (w2, p2) → w2.length = w.length := by
  intro n
  induction n with
  | zero =>
    intro offset w p w2 p2 h
    rw [copyBytes] at h
    cases h
    rfl
  | succ n ih =>
    intro offset w p w2 p2 h
    rw [copyBytes] at h
    rcases hg : w[(p + 65536 - offset) % 65536]? with _ | v <;>
      simp only [hg, reduceCtorEq] at h
    rcases hw : writeAt w p v with _ | w1 <;> simp only [hw, reduceCtorEq] at h
    calc w2.length = w1.length := ih offset w1 ((p + 1) % 65536) w2 p2 h
    _ = w.length := writeAt_length hw

/-- One loop iteration of `unhsq` either terminates returning the buffer as
is, or continues with a buffer of unchanged length. -/
theorem unhsqStep_length : ∀ (s : UnhsqState) (r : UnhsqStep), unhsqStep s = some r →
    (match r with
      | .done w => w = s.w
      | .cont s2 => s2.w.length = s.w.length) := by
  intro s r h
  rw [unhsqStep] at h
  rcases hb : s.rd.read_bit with _ | ⟨b, rd⟩ <;> simp only [hb, reduceCtorEq] at h
  rcases b with _ | _
  · -- bit 0: back-reference forms
    rcases hb2 : rd.read_bit with _ | ⟨b2, rd2⟩ <;> simp only [hb2, reduceCtorEq] at h
    rcases b2 with _ | _
    · -- short back-reference
      rcases hb3 : rd2.read_bit with _ | ⟨b3, rd3⟩ <;> simp only [hb3, reduceCtorEq] at h
      rcases hb4 : rd3.read_bit with _ | ⟨b4, rd4⟩ <;> simp only [hb4, reduceCtorEq] at h
      rcases hu : rd4.read_u8 with _ | ⟨bb, rd5⟩ <;> simp only [hu, reduceCtorEq] at h
      rcases hc : copyBytes (2 * (if b3 then 1 else 0) + (if b4 then 1 else 0) + 2)
          (256 - bb) s.w s.w_ofs with _ | ⟨w2, p2⟩ <;> simp only [hc, reduceCtorEq] at h
      cases h
      simpa using copyBytes_length _ _ _ _ _ _ hc
    · -- long back-reference
      rcases hw16 : rd2.read_le_u16 with _ | ⟨word, rd3⟩ <;> simp only [hw16, reduceCtorEq] at h
      by_cases hcnt : word % 8 = 0 <;> simp only [hcnt, reduceIte] at h
      · rcases hu : rd3.read_u8 with _ | ⟨c, rd4⟩ <;> simp only [hu, reduceCtorEq] at h
        by_cases hc0 : c = 0 <;> simp only [hc0, reduceIte] at h
        · cases h
          simp
        · rcases hc : copyBytes (c + 2) (8192 - word / 8) s.w s.w_ofs with _ | ⟨w2, p2⟩ <;>
            simp only [hc, reduceCtorEq] at h
          cases h
          simpa using copyBytes_length _ _ _ _ _ _ hc
      · rcases hc : copyBytes (word % 8 + 2) (8192 - word / 8) s.w s.w_ofs with _ | ⟨w2, p2⟩ <;>
          simp only [hc, reduceCtorEq] at h
        cases h
        simpa using copyBytes_length _ _ _ _ _ _ hc
  · -- bit 1: literal byte
    rcases hu : rd.read_u8 with _ | ⟨bb, rd1⟩ <;> simp only [hu, reduceCtorEq] at h
    rcases hw : writeAt s.w s.w_ofs bb with _ | w2 <;> simp only [hw, reduceCtorEq] at h
    cases h
    simpa using writeAt_length hw

/-- The fuelled main loop returns a buffer of the same length as the one it
started with. -/
theorem unhsqLoop_length : ∀ (fuel : Nat) (s : UnhsqState) (out : List Nat),
    unhsqLoop fuel s = some out → out.length = s.w.length := by
  intro fuel
  induction fuel with
  | zero => intro s out h; cases h
  | succ fuel ih =>
    intro s out h
    rw [unhsqLoop] at h
    rcases hs : unhsqStep s with _ | r <;> simp only [hs, reduceCtorEq] at h
    rcases r with w | s2
    · simp only [Option.some.injEq] at h
      rw [← h]
      have := unhsqStep_length s _ hs
      simp only at this
      rw [this]
    · calc out.length = s2.w.length := ih s2 out h
      _ = s.w.length := unhsqStep_length s _ hs

/-- C3: decompressing a signature-matched resource yields a buffer of
exactly the header's declared unpacked length; the output buffer never grows
past that length, and a write attempt beyond it is a fatal decode error
(`none`), not silent corruption. -/
theorem decompress_output_size :
    (∀ (r : List Nat) (wlen : Nat) (out : List Nat),
      unhsq r wlen = some out → out.length = wlen) ∧
    (∀ (w : List Nat) (i v : Nat), w.length ≤ i → writeAt w i v = none) ∧
    (∀ (data : List Nat) (u0 u1 b2 p0 p1 : Nat) (out : List Nat),
      data[0]? = some u0 → data[1]? = some u1 → data[2]? = some b2 →
      data[3]? = some p0 → data[4]? = some p1 →
      is_compressed data = true → p0 + 256 * p1 = data.length →
      DatFile.read data = some out → out.length = u0 + 256 * u1) := by
  have hsize : ∀ (r : List Nat) (wlen : Nat) (out : List Nat),
      unhsq r wlen = some out → out.length = wlen := by
    intro r wlen out h
    have := unhsqLoop_length (wlen + 1) ⟨⟨0, ⟨r, 0⟩⟩, List.replicate wlen 0, 0⟩ out h
    simpa using this
  refine ⟨hsize, ?_, ?_⟩
  · intro w i v h
    rw [writeAt, if_neg (by omega)]
  · intro data u0 u1 b2 p0 p1 out h0 h1 h2 h3 h4 hc heq hread
    have hr0 := read_le_u16_at data 0 u0 u1 h0 (by simpa using h1)
    have hskip := skip_u8_at data 2 b2 h2
    have hr1 := read_le_u16_at data 3 p0 p1 h3 (by simpa using h4)
    rw [DatFile.read, if_neg (by simp [hc])] at hread
    simp only [hr0] at hread
    rw [show ByteCursor.mk data (0 + 2) = ⟨data, 2⟩ by norm_num] at hread
    rw [hskip] at hread
    rw [show ByteCursor.mk data (2 + 1) = ⟨data, 3⟩ by norm_num] at hread
    simp only [hr1] at hread
    rw [if_neg (by simpa using heq)] at hread
    exact hsize _ _ _ hread

/-- Witness for C3: the two-literal stream decompresses into a buffer of
exactly the declared length 2. -/
theorem decompress_output_size_witness : ([65, 66] : List Nat).length = 2 :=
  decompress_output_size.1 [11, 0, 65, 66, 0, 0, 0] 2 [65, 66] (by decide)

/-- The back-reference emitter exactly as the spec words it: emit `k` bytes
copied from `output[write_pos - distance]` forward, one byte at a time, so a
distance smaller than the run length repeats the pattern.  This is the
spec-side counterpart of `copyBytes` for the refinement proof of the
decompression grammar. -/
def grammarEmit (distance : Nat) : Nat → List Nat → Nat → Option (List Nat × Nat)
  | 0, out, wpos => some (out, wpos)
  | k + 1, out, wpos =>
    match out[(wpos + 65536 - distance) % 65536]? with
    | none => none
    | some v =>
      match writeAt out wpos v with
      | none => none
      | some out2 => grammarEmit distance k out2 ((wpos + 1) % 65536)

/-- The decompression grammar as the specification states it, written
independently of `unhsqStep`: a 1 bit copies one raw input byte to the next
output position; bits 0 then 1 read a 16-bit little-endian word whose low 3
bits are the length code and whose distance is `8192 - (word >>> 3)`, reading
one extra byte as the length when the code is 0 and stopping when the
resulting length is 0; bits 0 then 0 read two more bits as a length code
(first bit most significant) and one byte `d` encoding distance `256 - d`;
every back-reference emits `length + 2` bytes via `grammarEmit`. -/
def hsqGrammarStep (s : UnhsqState) : Option UnhsqStep :=
  match s.rd.read_bit with
  | none => none
  | some (bit, rd) =>
    if bit then
      match rd.read_u8 with
      | none => none
      | some (lit, rd) =>
        match writeAt s.w s.w_ofs lit with
        | none => none
        | some out => some (.cont ⟨rd, out, (s.w_ofs + 1) % 65536⟩)
    else
      match rd.read_bit with
      | none => none
      | some (bit2, rd) =>
        if bit2 then
          match rd.read_le_u16 with
          | none => none
          | some (word, rd) =>
            let lengthCode := word % 8
            let distance := 8192 - word / 8
            if lengthCode = 0 then
              match rd.read_u8 with
              | none => none
              | some (ext, rd) =>
                if ext = 0 then some (.done s.w)
                else
                  match grammarEmit distance (ext + 2) s.w s.w_ofs with
                  | none => none
                  | some (out, wpos) => some (.cont ⟨rd, out, wpos⟩)
            else
              match grammarEmit distance (lengthCode + 2) s.w s.w_ofs with
              | none => none
              | some (out, wpos) => some (.cont ⟨rd, out, wpos⟩)
        else
          match rd.read_bit with
          | none => none
          | some (hi, rd) =>
            match rd.read_bit with
            | none => none
            | some (lo, rd) =>
              let lengthCode := 2 * (if hi then 1 else 0) + (if lo then 1 else 0)
              match rd.read_u8 with
              | none => none
              | some (d, rd) =>
                match grammarEmit (256 - d) (lengthCode + 2) s.w s.w_ofs with
                | none => none
                | some (out, wpos) => some (.cont ⟨rd, out, wpos⟩)

/-- The implementation's copy loop and the spec's emitter agree. -/
theorem copyBytes_eq_grammarEmit : ∀ (n distance : Nat) (out : List Nat) (wpos : Nat),
    copyBytes n distance out wpos = grammarEmit distance n out wpos := by
  intro n
  induction n with
  | zero => intro distance out wpos; rfl
  | succ n ih =>
    intro distance out wpos
    rw [copyBytes, grammarEmit]
    rcases hg : out[(wpos + 65536 - distance) % 65536]? with _ | v <;> simp only [hg]
    rcases hw : writeAt out wpos v with _ | out2 <;> simp only [hw]
    exact ih distance out2 ((wpos + 1) % 65536)

/-- C1: the decompressor's main loop follows exactly the spec's grammar —
its step function coincides with the independently written `hsqGrammarStep`
on every state — and end-to-end: a literal-only stream decodes to exactly
its literal bytes; a short back-reference with distance 1 repeats the last
byte (overlapping byte-at-a-time copy); a long back-reference with distance
2 repeats a two-byte pattern; both streams stop at the length-0 terminator. -/
theorem unhsq_follows_grammar :
    (∀ s : UnhsqState, unhsqStep s = hsqGrammarStep s) ∧
    unhsq [11, 0, 65, 66, 0, 0, 0] 2 = some [65, 66] ∧
    unhsq [89, 0, 9, 255, 0, 0, 0] 6 = some [9, 9, 9, 9, 9, 9] ∧
    unhsq [43, 0, 4, 5, 243, 255, 0, 0, 0] 7 = some [4, 5, 4, 5, 4, 5, 4] := by
  refine ⟨?_, by decide, by decide, by decide⟩
  intro s
  rw [unhsqStep, hsqGrammarStep]
  rcases hb : s.rd.read_bit with _ | ⟨b, rd⟩ <;> simp only [hb]
  rcases b with _ | _
  · simp only [Bool.false_eq_true, if_false]
    rcases hb2 : rd.read_bit with _ | ⟨b2, rd2⟩ <;> simp only [hb2]
    rcases b2 with _ | _
    · simp only [Bool.false_eq_true, if_false]
      rcases hb3 : rd2.read_bit with _ | ⟨b3, rd3⟩ <;> simp only [hb3]
      rcases hb4 : rd3.read_bit with _ | ⟨b4, rd4⟩ <;> simp only [hb4]
      rcases hu : rd4.read_u8 with _ | ⟨d, rd5⟩ <;> simp only [hu]
      rw [copyBytes_eq_grammarEmit]
    · simp only [if_true]
      rcases hw : rd2.read_le_u16 with _ | ⟨word, rd3⟩ <;> simp only [hw]
      by_cases hc : word % 8 = 0 <;> simp only [hc, reduceIte]
      · rcases hu : rd3.read_u8 with _ | ⟨ext, rd4⟩ <;> simp only [hu]
        by_cases he : ext = 0 <;> simp only [he, reduceIte]
        rw [copyBytes_eq_grammarEmit]
      · rw [copyBytes_eq_grammarEmit]
  · simp only [if_true]

/-- Elementary properties of one sequential destination write: the position
advances by one, stays within the (possibly extended) buffer, the written
index holds the value, and every other index is untouched. -/
theorem write_u8_props (w : WriteCursor) (v : Nat) (h : w.pos ≤ w.data.length) :
    (w.write_u8 v).pos = w.pos + 1 ∧ (w.write_u8 v).pos ≤ (w.write_u8 v).data.length ∧
    (w.write_u8 v).data[w.pos]? = some v ∧
    (∀ i, i ≠ w.pos → (w.write_u8 v).data[i]? = w.data[i]?) := by
  rw [WriteCursor.write_u8]
  by_cases hlt : w.pos < w.data.length
  · rw [if_pos hlt]
    refine ⟨rfl, by simpa using hlt, ?_, ?_⟩
    · rw [List.getElem?_set_self', List.getElem?_eq_getElem hlt]
      rfl
    · intro i hi
      exact List.getElem?_set_ne (fun he => hi he.symm)
  · rw [if_neg hlt]
    have hpos : w.pos = w.data.length := by omega
    refine ⟨rfl, by simp; omega, ?_, ?_⟩
    · rw [hpos, List.getElem?_append_right (Nat.le_refl _)]
      simp
    · intro i hi
      rcases Nat.lt_or_ge i w.data.length with hlo | hhi
      · exact List.getElem?_append_left hlo
      · have hgt : w.data.length + 1 ≤ i := by omega
        rw [List.getElem?_eq_none (by simpa using hgt), List.getElem?_eq_none hhi]

/-- The repeat-run loop of `unrle` advances the destination by `n` and fills
exactly the positions `w.pos .. w.pos + n - 1` with the literal value,
leaving everything else unchanged. -/
theorem writeRepeat_spec : ∀ (n : Nat) (w : WriteCursor) (v : Nat),
    w.pos ≤ w.data.length →
    (writeRepeat n w v).pos = w.pos + n ∧
    (writeRepeat n w v).pos ≤ (writeRepeat n w v).data.length ∧
    (∀ j, j < n → (writeRepeat n w v).data[w.pos + j]? = some v) ∧
    (∀ i, i < w.pos ∨ w.pos + n ≤ i → (writeRepeat n w v).data[i]? = w.data[i]?) := by
  intro n
  induction n with
  | zero =>
    intro w v h
    exact ⟨rfl, h, by omega, fun i _ => rfl⟩
  | succ n ih =>
    intro w v h
    obtain ⟨hp1, hle1, hself, hframe⟩ := write_u8_props w v h
    rw [writeRepeat]
    obtain ⟨ihp, ihle, ihfill, ihframe⟩ := ih (w.write_u8 v) v hle1
    refine ⟨by omega, ihle, ?_, ?_⟩
    · intro j hj
      rcases Nat.eq_zero_or_pos j with rfl | hjpos
      · rw [Nat.add_zero, ihframe w.pos (by omega), hself]
      · obtain ⟨j2, rfl⟩ : ∃ j2, j = j2 + 1 := ⟨j - 1, by omega⟩
        have hfill := ihfill j2 (by omega)
        rw [hp1] at hfill
        rw [show w.pos + (j2 + 1) = w.pos + 1 + j2 by omega]
        exact hfill
    · intro i hi
      rw [ihframe i (by omega), hframe i (by omega)]

/-- The literal-run loop of `unrle` advances source and destination by `n`
and copies the next `n` source bytes verbatim, leaving everything else
unchanged. -/
theorem writeLiterals_spec : ∀ (n : Nat) (src : ByteCursor) (w : WriteCursor)
    (src2 : ByteCursor) (w2 : WriteCursor),
    w.pos ≤ w.data.length →
    writeLiterals n src w = some (src2, w2) →
    w2.pos = w.pos + n ∧ w2.pos ≤ w2.data.length ∧
    src2 = ⟨src.data, src.pos + n⟩ ∧
    (∀ j, j < n → w2.data[w.pos + j]? = src.data[src.pos + j]?) ∧
    (∀ i, i < w.pos ∨ w.pos + n ≤ i → w2.data[i]? = w.data[i]?) := by
  intro n
  induction n with
  | zero =>
    intro src w src2 w2 h heq
    rw [writeLiterals] at heq
    cases heq
    exact ⟨rfl, h, rfl, by omega, fun i _ => rfl⟩
  | succ n ih =>
    intro src w src2 w2 h heq
    rw [writeLiterals] at heq
    rcases hr : src.read_u8 with _ | ⟨b, src1⟩ <;> simp only [hr, reduceCtorEq] at heq
    have hsrc1 : src1 = ⟨src.data, src.pos + 1⟩ ∧ src.data[src.pos]? = some b := by
      rw [ByteCursor.read_u8] at hr
      rcases hg : src.data[src.pos]? with _ | b2 <;> simp only [hg, reduceCtorEq] at hr
      cases hr
      exact ⟨rfl, rfl⟩
    obtain ⟨rfl, hbyte⟩ := hsrc1
    obtain ⟨hp1, hle1, hself, hframe⟩ := write_u8_props w b h
    obtain ⟨ihp, ihle, rfl, ihfill, ihframe⟩ := ih _ (w.write_u8 b) _ _ hle1 heq
    refine ⟨by omega, ihle, by simp; omega, ?_, ?_⟩
    · intro j hj
      rcases Nat.eq_zero_or_pos j with rfl | hjpos
      · rw [Nat.add_zero, ihframe w.pos (by omega), hself, Nat.add_zero, hbyte]
      · obtain ⟨j2, rfl⟩ : ∃ j2, j = j2 + 1 := ⟨j - 1, by omega⟩
        have hfill := ihfill j2 (by omega)
        rw [hp1] at hfill
        simp only [] at hfill
        rw [show w.pos + (j2 + 1) = w.pos + 1 + j2 by omega,
          show src.pos + (j2 + 1) = src.pos + 1 + j2 by omega]
        exact hfill
    · intro i hi
      rw [ihframe i (by omega), hframe i (by omega)]

/-- Counterexample to C4 as stated: for a sprite of pitch 2 and height 2,
the RLE stream `[2, 5,6,7, 1, 8,9]` opens with a literal run of 3 units —
more than the 2-byte row pitch — and `unrle` emits the whole run, so its
output crosses the row boundary and the decoded buffer has 5 bytes instead
of `height * pitch = 4`: runs are not confined to one row. -/
theorem unrle_run_crossing_counterexample :
    Sprite.unrle ⟨3, 2, 0⟩ [2, 5, 6, 7, 1, 8, 9] = some [5, 6, 7, 8, 9] ∧
    Sprite.pitch ⟨3, 2, 0⟩ = 2 ∧
    ([5, 6, 7, 8, 9] : List Nat).length ≠ 2 * 2 := by
  refine ⟨by decide, by decide, by decide⟩

/-- C4 (amended): sprite RLE decoding applies the run-length grammar per
scanline: a command byte with the high bit set emits `257 - command` copies
of the one following byte, a command with the high bit clear emits
`command + 1` raw bytes verbatim, and the row loop stops consuming commands
as soon as at least the row's padded pitch has been emitted; however a run
whose count overshoots the remaining pitch is emitted in full, so a single
run may cross the row boundary (its output spills past the row, extending
the destination as needed) — runs are not clipped at row boundaries. -/
theorem unrle_row_grammar :
    (∀ (pitch fuel x : Nat) (src : ByteCursor) (w : WriteCursor), pitch ≤ x →
      unrleRow pitch (fuel + 1) x src w = some (src, w)) ∧
    (∀ (pitch fuel x : Nat) (src src1 src2 : ByteCursor) (w : WriteCursor) (cmd v : Nat),
      x < pitch → src.read_u8 = some (cmd, src1) → cmd &&& 0x80 ≠ 0 →
      src1.read_u8 = some (v, src2) →
      unrleRow pitch (fuel + 1) x src w =
        unrleRow pitch fuel (x + (257 - cmd)) src2 (writeRepeat (257 - cmd) w v)) ∧
    (∀ (pitch fuel x : Nat) (src src1 src2 : ByteCursor) (w w1 : WriteCursor) (cmd : Nat),
      x < pitch → src.read_u8 = some (cmd, src1) → cmd &&& 0x80 = 0 →
      writeLiterals (cmd + 1) src1 w = some (src2, w1) →
      unrleRow pitch (fuel + 1) x src w = unrleRow pitch fuel (x + (cmd + 1)) src2 w1) ∧
    (∀ (n : Nat) (w : WriteCursor) (v : Nat), w.pos ≤ w.data.length →
      (writeRepeat n w v).pos = w.pos + n ∧
      (∀ j, j < n → (writeRepeat n w v).data[w.pos + j]? = some v)) ∧
    (∀ (n : Nat) (src src2 : ByteCursor) (w w2 : WriteCursor),
      w.pos ≤ w.data.length → writeLiterals n src w = some (src2, w2) →
      w2.pos = w.pos + n ∧ src2 = ⟨src.data, src.pos + n⟩ ∧
      (∀ j, j < n → w2.data[w.pos + j]? = src.data[src.pos + j]?)) := by
  refine ⟨?_, ?_, ?_, ?_, ?_⟩
  · intro pitch fuel x src w hx
    rw [unrleRow, if_neg (by omega)]
  · intro pitch fuel x src src1 src2 w cmd v hx h1 hcmd h2
    rw [unrleRow, if_pos hx]
    simp only [h1, hcmd, if_neg, reduceIte, h2]
    rw [if_pos hcmd]
  · intro pitch fuel x src src1 src2 w w1 cmd hx h1 hcmd h2
    rw [unrleRow, if_pos hx]
    simp only [h1]
    rw [if_neg (by simp [hcmd])]
    simp only [h2]
  · intro n w v h
    obtain ⟨hp, _, hfill, _⟩ := writeRepeat_spec n w v h
    exact ⟨hp, hfill⟩
  · intro n src src2 w w2 h heq
    obtain ⟨hp, _, hsrc, hfill, _⟩ := writeLiterals_spec n src w src2 w2 h heq
    exact ⟨hp, hsrc, hfill⟩

/-- Witness for C4 (amended): with `x = 5` already at or past the pitch 2,
the row loop stops immediately without consuming a command. -/
theorem unrle_row_grammar_witness :
    unrleRow 2 1 5 ⟨[9], 0⟩ ⟨[], 0⟩ = some (⟨[9], 0⟩, ⟨[], 0⟩) :=
  unrle_row_grammar.1 2 0 5 ⟨[9], 0⟩ ⟨[], 0⟩ (by omega)

/-- C7: for a raw 4bpp sprite the row pitch is `2 * ceil(width / 4)` bytes;
the pixel at column `x` of row `y` comes from payload byte
`y * pitch + x / 2` — low nibble when `x` is even, high nibble when `x` is
odd; a 0 nibble leaves the destination pixel unchanged (transparency) while
a non-zero nibble is written with the effective palette offset added
(u8 wrap); the crafted 3×2 sprite decodes exactly as the spec's example. -/
theorem draw_4bb_pixel_format :
    (∀ spr : Sprite, spr.bpp = 4 → spr.pitch = 2 * ((spr.width + 3) / 4)) ∧
    (∀ (spr : Sprite) (src : List Nat) (dst_x dst_y po : Nat) (f : Frame) (y x c0 : Nat),
      src[y * spr.pitch + x / 2]? = some c0 →
      (x % 2 = 0 → c0 % 16 = 0 →
        draw4Pixel spr src dst_x dst_y false false po f y x = some f) ∧
      (x % 2 = 0 → c0 % 16 ≠ 0 →
        draw4Pixel spr src dst_x dst_y false false po f y x =
          some (f.write_pixel (dst_x + x) (dst_y + y) ((c0 % 16 + po) % 256))) ∧
      (x % 2 = 1 → c0 / 16 = 0 →
        draw4Pixel spr src dst_x dst_y false false po f y x = some f) ∧
      (x % 2 = 1 → c0 / 16 ≠ 0 →
        draw4Pixel spr src dst_x dst_y false false po f y x =
          some (f.write_pixel (dst_x + x) (dst_y + y) ((c0 / 16 + po) % 256)))) ∧
    (∀ (spr : Sprite) (src : List Nat) (f : Frame) (x y : Nat)
      (fx fy : Bool) (sc : Nat),
      Sprite.draw_4bb spr src f x y fx fy sc 0 =
        Sprite.draw_4bb spr src f x y fx fy sc spr.pal_offset) ∧
    Sprite.draw_4bb ⟨3, 2, 10⟩ [1, 3, 84, 6] ⟨List.replicate 12 9, 4, 3⟩ 0 0 false false 0 0 =
      some ⟨[11, 9, 13, 9, 14, 15, 16, 9, 9, 9, 9, 9], 4, 3⟩ ∧
    Sprite.draw_4bb ⟨3, 2, 10⟩ [1, 3, 84, 6] ⟨List.replicate 12 9, 4, 3⟩ 0 0 false false 0 32 =
      some ⟨[33, 9, 35, 9, 36, 37, 38, 9, 9, 9, 9, 9], 4, 3⟩ := by
  refine ⟨?_, ?_, ?_, by decide, by decide⟩
  · intro spr h
    rw [Sprite.pitch, if_neg (by rw [h]; decide)]
  · intro spr src dst_x dst_y po f y x c0 hsrc
    refine ⟨fun hx hz => ?_, fun hx hz => ?_, fun hx hz => ?_, fun hx hz => ?_⟩ <;>
      simp [draw4Pixel, hsrc, hx, hz]
  · intro spr src f x y fx fy sc
    simp [Sprite.draw_4bb]

/-- Witness for C7: the crafted 3×2 4bpp sprite has `bpp = 4` and pitch
`2 * ceil(3 / 4) = 2`. -/
theorem draw_4bb_pixel_format_witness :
    Sprite.pitch ⟨3, 2, 10⟩ = 2 * ((3 + 3) / 4) :=
  draw_4bb_pixel_format.1 ⟨3, 2, 10⟩ (by decide)

/-- Counterexample to C8 as stated: an 8bpp sprite whose effective mode is
255 does NOT write a source pixel of value 0 — the destination keeps its
prior value 7 — while an effective mode of 3 (≠ 255) writes the 0 opaquely.
This is the reverse of the claimed mode-255 "no transparency" rule: in the
code the write condition is `mode != 255 || c != 0`. -/
theorem draw_8bpp_mode255_counterexample :
    Sprite.draw_8bpp ⟨1, 1, 255⟩ [0] ⟨[7], 1, 1⟩ 0 0 false false 0 0 = some ⟨[7], 1, 1⟩ ∧
    Sprite.draw_8bpp ⟨1, 1, 255⟩ [0] ⟨[7], 1, 1⟩ 0 0 false false 0 3 = some ⟨[0], 1, 1⟩ := by
  exact ⟨by decide, by decide⟩

/-- C8 (amended): when drawing an 8bpp sprite the effective mode is the
draw-time palette offset when non-zero, otherwise the sprite's embedded
offset (and for modes ≥ 254 the embedded offset no longer affects the
result); if the effective mode is 255 a source pixel value of 0 is skipped,
leaving the destination unchanged, and if the effective mode is not 255
every pixel value including 0 is written to the framebuffer. -/
theorem draw_8bpp_mode_semantics :
    (∀ (spr : Sprite) (src : List Nat) (f : Frame) (x y : Nat) (fx fy : Bool) (sc : Nat),
      Sprite.draw_8bpp spr src f x y fx fy sc 0 =
        Sprite.draw_8bpp spr src f x y fx fy sc spr.pal_offset) ∧
    (∀ (w h p q : Nat) (src : List Nat) (f : Frame) (x y : Nat) (fx fy : Bool) (sc m : Nat),
      254 ≤ p → 254 ≤ q → m ≠ 0 →
      Sprite.draw_8bpp ⟨w, h, p⟩ src f x y fx fy sc m =
        Sprite.draw_8bpp ⟨w, h, q⟩ src f x y fx fy sc m) ∧
    (∀ (spr : Sprite) (src : List Nat) (dst_x dst_y mode : Nat) (f : Frame) (y x c : Nat),
      src[y * spr.pitch + x]? = some c →
      (mode = 255 → c = 0 →
        draw8Pixel spr src dst_x dst_y false false mode f y x = some f) ∧
      (mode = 255 → c ≠ 0 →
        draw8Pixel spr src dst_x dst_y false false mode f y x =
          some (f.write_pixel (dst_x + x) (dst_y + y) c)) ∧
      (mode ≠ 255 →
        draw8Pixel spr src dst_x dst_y false false mode f y x =
          some (f.write_pixel (dst_x + x) (dst_y + y) c))) ∧
    Sprite.draw_8bpp ⟨2, 1, 255⟩ [0, 5] ⟨[7, 7], 2, 1⟩ 0 0 false false 0 0 =
      some ⟨[7, 5], 2, 1⟩ := by
  refine ⟨?_, ?_, ?_, by decide⟩
  · intro spr src f x y fx fy sc
    simp [Sprite.draw_8bpp]
  · intro w h p q src f x y fx fy sc m hp hq hm
    have hpp : Sprite.pitch ⟨w, h, p⟩ = w := by
      simp [Sprite.pitch, Sprite.bpp, Nat.not_lt.mpr hp]
    have hqq : Sprite.pitch ⟨w, h, q⟩ = w := by
      simp [Sprite.pitch, Sprite.bpp, Nat.not_lt.mpr hq]
    simp only [Sprite.draw_8bpp, draw8Pixel, hpp, hqq]
    simp [hm]
  · intro spr src dst_x dst_y mode f y x c hsrc
    refine ⟨fun hm hc => by simp [draw8Pixel, hsrc, hm, hc],
      fun hm hc => by simp [draw8Pixel, hsrc, hm, hc],
      fun hm => by simp [draw8Pixel, hsrc, hm]⟩

/-- Witness for C8 (amended): with a non-zero draw-time mode 5, the embedded
offsets 254 and 255 draw identically. -/
theorem draw_8bpp_mode_semantics_witness :
    Sprite.draw_8bpp ⟨1, 1, 254⟩ [9] ⟨[0], 1, 1⟩ 0 0 false false 0 5 =
      Sprite.draw_8bpp ⟨1, 1, 255⟩ [9] ⟨[0], 1, 1⟩ 0 0 false false 0 5 :=
  draw_8bpp_mode_semantics.2.1 1 1 254 255 [9] ⟨[0], 1, 1⟩ 0 0 false false 0 5
    (by decide) (by decide) (by decide)
